import Mathlib

/-!
Verification of the batched nested-relation loader of
`graphene_sqlalchemy_filter/connection_field.py`.

The development shallowly embeds the request-time core of the module:
`ModelLoader` (construction, `_get_model_pk_field_name`, `_get_query`,
`batch_load_fn`) and `NestedFilterableConnectionField._get_or_create_data_loader`
(the request-scoped loader registry keyed by the string segments of the
resolution path).  SQLAlchemy queries are embedded as a syntax tree
(`Query`), and query execution is represented by the list of parent rows the
composed query yields, each row carrying its primary-key value and the value
of the relation attribute (the filtered and sorted children loaded by the
join).
-/

set_option autoImplicit false

namespace ConnectionField

/-- Python runtime values, as far as the module inspects them: the argument
dictionary `graphql_args` is read with `dict.get` (absent keys yield `None`),
values are tested for truthiness (`if request_filters:`, `if sort`) and with
`isinstance(sort, list)`. -/
inductive PyVal where
  | none
  | bool (b : Bool)
  | int (n : Int)
  | str (s : String)
  | list (xs : List PyVal)

/-- Python truthiness of the embedded values: `None`, `False`, `0`, `''` and
`[]` are falsy, everything else is truthy. -/
def PyVal.truthy : PyVal → Bool
  | .none => false
  | .bool b => b
  | .int n => n != 0
  | .str s => s != ""
  | .list xs => !xs.isEmpty

/-- Embeds `isinstance(x, list)`. -/
def PyVal.isList : PyVal → Bool
  | .list _ => true
  | _ => false

/-- A dictionary of request arguments (`graphql_args` / `kwargs`). -/
abbrev ArgsDict := List (String × PyVal)

/-- Embeds Python `dict.get(key)`: the first binding of `key`, or `None` when
the key is absent. -/
def dictGet (d : ArgsDict) (key : String) : PyVal :=
  match d with
  | [] => .none
  | (k, v) :: rest => if k = key then v else dictGet rest key

/-- A mapped column as the loader inspects it: its attribute name and whether
it is part of the primary key (`inspection.inspect(model).columns.items()`,
`c.primary_key`). -/
structure Column where
  name : String
  primary_key : Bool
deriving DecidableEq, Repr

/-- An SQLAlchemy model, reduced to what the module reflects over: its named
columns with their primary-key flags. -/
abbrev Model := List Column

/-- The `ModelNotSupported` exception, carrying its message. -/
structure ModelNotSupported where
  message : String
deriving DecidableEq, Repr

/-- The constant `DEFAULT_FILTER_ARG = 'filters'`. -/
def DEFAULT_FILTER_ARG : String := "filters"

/-- Embeds `ModelLoader._get_model_pk_field_name`: collect the names of the
primary-key columns; raise `ModelNotSupported` unless exactly one, otherwise
return that single name. -/
def getModelPkFieldName (model : Model) : Except ModelNotSupported String :=
  let model_pk_fields : List String :=
    (model.filter (fun c => c.primary_key)).map (fun c => c.name)
  match model_pk_fields with
  | [model_pk_field] => .ok model_pk_field
  | fields =>
      .error ⟨"The number of primary keys must be equal to 1 but " ++
        toString fields.length ++ " were given."⟩

/-- The state of a constructed `ModelLoader`: the fields its `__init__`
assigns.  `info` is kept only through the data read from it (the field name);
`model_relation_field` stores the relation attribute name (the source applies
the external `to_snake_case` normalisation to `info.field_name`, which is
opaque to the claims and left to the caller here). -/
structure ModelLoaderS where
  filter_arg : String := DEFAULT_FILTER_ARG
  graphql_args : ArgsDict
  model : Model
  parent_model : Model
  parent_model_pk_field : String
  model_relation_field : String

/-- Embeds `ModelLoader.__init__`: stores the arguments and computes
`parent_model_pk_field` via `_get_model_pk_field_name(parent_model)`, which is
the only step that can raise.  No query is built or executed here: the result
is just the assigned state. -/
def ModelLoader.init (parent_model model : Model) (field_name : String)
    (graphql_args : ArgsDict) : Except ModelNotSupported ModelLoaderS :=
  match getModelPkFieldName parent_model with
  | .error e => .error e
  | .ok pk =>
      .ok { graphql_args := graphql_args
            model := model
            parent_model := parent_model
            parent_model_pk_field := pk
            model_relation_field := field_name }

/-- SQLAlchemy query expressions, as composed by `ModelLoader._get_query` and
`batch_load_fn`.  Constructors mirror the source operations:
`base` is `graphene_sqlalchemy.get_query(model, context)`, `filtered` is
`filter_set.filter(info, subquery, request_filters)` (the external Filter
Spec, kept symbolic), `ordered` is `subquery.order_by(*(col.value for col in
sort))` (the sort directives kept as given), and `joined` is the final
`get_query(parent_model).join(aliased(model, subquery.subquery()),
relation).options(contains_eager(...), Load(parent_model).load_only(pk))`. -/
inductive Query where
  | base (model : Model)
  | filtered (q : Query) (request_filters : PyVal)
  | ordered (q : Query) (sort : List PyVal)
  | joined (parent : Query) (aliased_model : Model) (subquery : Query)
      (relation : String) (load_only_pk : String)

/-- Embeds `ModelLoader._get_query`: build the child-side base query; apply
the filter set when `graphql_args.get(filter_arg)` is truthy; apply
`order_by` when `graphql_args.get('sort')` is truthy and is a list; wrap the
result as an aliased subquery and join it to the parent query, eager-loading
the relation and restricting the parent projection to its primary key. -/
def ModelLoaderS.getQuery (self : ModelLoaderS) : Query :=
  let subquery := Query.base self.model
  let request_filters := dictGet self.graphql_args self.filter_arg
  let subquery :=
    if request_filters.truthy then Query.filtered subquery request_filters
    else subquery
  let sort := dictGet self.graphql_args "sort"
  let subquery :=
    if sort.truthy && sort.isList then
      Query.ordered subquery (match sort with | .list xs => xs | _ => [])
    else subquery
  Query.joined (Query.base self.parent_model) self.model subquery
    self.model_relation_field self.parent_model_pk_field

/-- A parent row as iterating the composed query yields it: its primary-key
value (`parent_model_object_to_key`) and the value of the relation attribute
(`getattr(parent_object, self.model_relation_field)`), i.e. the child rows
the join eagerly loaded for it, already filtered and sorted. -/
structure ParentRow (κ γ : Type) where
  pk : κ
  children : List γ
deriving DecidableEq, Repr

/-- Embeds the dict comprehension of `batch_load_fn` as the mapping it
defines: `{key(p): children(p) for p in query}` maps `k` to the children of
the last row of `query` whose key is `k` (later bindings overwrite earlier
ones), and to nothing when no row has key `k`.  Only `objects.get` is ever
applied to the dict, so it is embedded by its lookup function. -/
def pyDictLookup {κ γ : Type} [DecidableEq κ] (query : List (ParentRow κ γ))
    (k : κ) : Option (List γ) :=
  ((query.filter (fun p => p.pk = k)).getLast?).map (fun p => p.children)

/-- Embeds `ModelLoader.batch_load_fn`.  `rows` is the result set of
`self._get_query()`; the source then applies
`.filter(parent_pk.in_(keys))`, builds the dict of the comprehension, and
returns `[objects.get(object_id, []) for object_id in keys]`. -/
def batch_load_fn {κ γ : Type} [DecidableEq κ] (rows : List (ParentRow κ γ))
    (keys : List κ) : List (List γ) :=
  let query := rows.filter (fun p => p.pk ∈ keys)
  keys.map (fun object_id => (pyDictLookup query object_id).getD [])

/-- A segment of `info.path` in the resolution engine: a string field name or
an integer list index. -/
inductive PathSeg where
  | str (s : String)
  | idx (n : Nat)
deriving DecidableEq, Repr

/-- Embeds `tuple(p for p in info.path if isinstance(p, str))`: the loader key
keeps only the string segments of the resolution path. -/
def dataLoaderKey (path : List PathSeg) : List String :=
  path.filterMap (fun p => match p with | .str s => some s | .idx _ => none)

/-- A `ModelLoader` as the registry tracks it across one request: a creation
index standing for object identity, the `graphql_args` captured at
construction, and the keys queued in its unfired batch.  The queue is
modelled from the spec: the external promise `DataLoader` collects the full
set of distinct submitted keys in first-submission order (spec section 4.2);
`ModelLoader` itself only supplies `batch_load_fn`. -/
structure LoaderInst (κ : Type) where
  id : Nat
  args : ArgsDict
  pending : List κ

/-- The dataloader registry stored in the request context's
`_sqla_filter_dataloaders` slot: a dictionary from tree-location keys to
loaders, with a counter supplying fresh identities for new loaders. -/
structure LoaderRegistry (κ : Type) where
  loaders : List (List String × LoaderInst κ)
  nextId : Nat

def LoaderRegistry.empty {κ : Type} : LoaderRegistry κ := ⟨[], 0⟩

/-- Dictionary lookup in the registry (`data_loaders[data_loader_key]` with
its `KeyError` fallback as `Option`). -/
def regLookup {κ : Type} (loaders : List (List String × LoaderInst κ))
    (key : List String) : Option (LoaderInst κ) :=
  match loaders with
  | [] => Option.none
  | e :: rest => if e.1 = key then some e.2 else regLookup rest key

/-- Dictionary update at an existing key: replace that entry's loader. -/
def regUpdate {κ : Type} (loaders : List (List String × LoaderInst κ))
    (key : List String) (l : LoaderInst κ) :
    List (List String × LoaderInst κ) :=
  match loaders with
  | [] => []
  | e :: rest => (if e.1 = key then (key, l) else e) :: regUpdate rest key l

/-- One nested-field resolution reaching `connection_resolver`: the node's
resolution path, the parent row's primary-key value submitted via
`data_loader.load`, and the field's raw arguments. -/
structure Submission (κ : Type) where
  path : List PathSeg
  key : κ
  args : ArgsDict

/-- Modelled from the spec: `DataLoader.load(key)` of the external promise
library caches per key, so a key already queued in the unfired batch gains no
second queue entry; a new key is appended in submission order (spec section
4.2). -/
def LoaderInst.load {κ : Type} [DecidableEq κ] (l : LoaderInst κ) (k : κ) :
    LoaderInst κ :=
  if k ∈ l.pending then l else { l with pending := l.pending ++ [k] }

/-- Embeds one invocation of
`NestedFilterableConnectionField._get_or_create_data_loader` followed by
`data_loader.load(root_pk_value)` (`connection_resolver`): look the
tree-location key up in the registry; on a hit, submit the key to the
existing loader; on a miss, construct a `ModelLoader` with this invocation's
arguments, store it, and submit the key to it. -/
def getOrCreateAndLoad {κ : Type} [DecidableEq κ] (r : LoaderRegistry κ)
    (s : Submission κ) : LoaderRegistry κ :=
  let key := dataLoaderKey s.path
  match regLookup r.loaders key with
  | some l => { r with loaders := regUpdate r.loaders key (l.load s.key) }
  | Option.none =>
      { loaders := r.loaders ++ [(key, ⟨r.nextId, s.args, [s.key]⟩)]
        nextId := r.nextId + 1 }

/-- One resolution wave of a request: every synchronously issued nested-field
resolution goes through `_get_or_create_data_loader` and `load`, in order,
against the registry of the shared request context. -/
def processWave {κ : Type} [DecidableEq κ] (subs : List (Submission κ)) :
    LoaderRegistry κ :=
  subs.foldl getOrCreateAndLoad LoaderRegistry.empty

/-- The loader instance `_get_or_create_data_loader` returns to submission
`i` of a wave: the loader stored at its tree-location key right after its own
invocation ran (identified by its creation index). -/
def loaderIdAt {κ : Type} [DecidableEq κ] (subs : List (Submission κ))
    (i : Fin subs.length) : Option Nat :=
  (regLookup (processWave (subs.take (i.1 + 1))).loaders
    (dataLoaderKey (subs.get i).path)).map (fun l => l.id)

/-- Firing one loader at the wave boundary: its single `batch_load_fn` call
receives the queued keys and iterates its one composed query once, so one
retrieval executes per fired batch.  The dispatch-once-per-wave step is
modelled from the spec (promise `DataLoader`, spec sections 4.2 and 5); the
single query per `batch_load_fn` call is the source's
`query = self._get_query().filter(...)` iterated once by the comprehension. -/
def fireBatch {κ γ : Type} [DecidableEq κ] (rows : List (ParentRow κ γ))
    (l : LoaderInst κ) : List (List γ) × Nat :=
  (batch_load_fn rows l.pending, 1)

/-- Number of retrievals a wave executes: each registered loader fires once,
contributing the retrievals of its single `batch_load_fn` call. -/
def waveRetrievalCount {κ γ : Type} [DecidableEq κ]
    (rows : List (ParentRow κ γ)) (subs : List (Submission κ)) : Nat :=
  ((processWave subs).loaders.map (fun e => (fireBatch rows e.2).2)).sum

/-- A request context: either a mapping (entries of the dict relevant to the
registry, i.e. bindings of slot names to registries) or an attribute-bearing
object (the `_sqla_filter_dataloaders` attribute when set).  Python code:
`isinstance(context, dict)` chooses the branch. -/
inductive Ctx (κ : Type) where
  | dict (entries : List (String × LoaderRegistry κ))
  | obj (slot : Option (LoaderRegistry κ))

/-- Embeds the slot acquisition of `_get_or_create_data_loader`: on a dict
context, `context[field]` with `KeyError` handled by storing a fresh empty
registry; on an object context, `getattr(context, field, None)` with `None`
handled by `setattr` of a fresh empty registry.  Returns the registry and the
(possibly updated) context. -/
def getDataLoaders {κ : Type} (context : Ctx κ) (field : String) :
    LoaderRegistry κ × Ctx κ :=
  match context with
  | .dict entries =>
      match entries.lookup field with
      | some data_loaders => (data_loaders, context)
      | Option.none =>
          (LoaderRegistry.empty, .dict ((field, LoaderRegistry.empty) :: entries))
  | .obj slot =>
      match slot with
      | some data_loaders => (data_loaders, context)
      | Option.none => (LoaderRegistry.empty, .obj (some LoaderRegistry.empty))

/-- Whether the context has the dataloaders extension slot. -/
def hasSlot {κ : Type} (context : Ctx κ) (field : String) : Bool :=
  match context with
  | .dict entries => (entries.lookup field).isSome
  | .obj slot => slot.isSome

/-- The field name constant `NestedFilterableConnectionField.dataloaders_field`. -/
def dataloaders_field : String := "_sqla_filter_dataloaders"

/-- Statement-side characterization, following the spec's words: the sequence
of child rows belonging to a key is the children of the parent row carrying
that primary-key value, and the empty sequence when no parent row matches. -/
def childrenBelongingTo {κ γ : Type} [DecidableEq κ]
    (rows : List (ParentRow κ γ)) (k : κ) : List γ :=
  match rows.find? (fun p => p.pk = k) with
  | some p => p.children
  | Option.none => []

/-- Well-formedness of a registry, maintained by `getOrCreateAndLoad` from
the empty registry: the tree-location keys are pairwise distinct (a Python
dict), the loader identities are pairwise distinct, and every identity is
below the fresh-identity counter. -/
def RegWF {κ : Type} (r : LoaderRegistry κ) : Prop :=
  (r.loaders.map Prod.fst).Nodup ∧
  (r.loaders.map (fun e => e.2.id)).Nodup ∧
  ∀ e ∈ r.loaders, e.2.id < r.nextId

/-- An argument dictionary with every binding of one key removed: the
request in which that argument is omitted, used to state that a degenerate
argument composes the same query as leaving the argument out. -/
def removeArg (d : ArgsDict) (key : String) : ArgsDict :=
  d.filter (fun e => e.1 ≠ key)

/-- Claim exemplar: two sibling resolutions of a `posts` field under
different `users` list indices, submitting the parent keys 5 and 7 with no
extra arguments. -/
def twoSiblingWave : List (Submission Nat) :=
  [⟨[PathSeg.str "users", PathSeg.idx 0, PathSeg.str "posts"], 5, []⟩,
   ⟨[PathSeg.str "users", PathSeg.idx 1, PathSeg.str "posts"], 7, []⟩]

/-- Claim exemplar: two sibling resolutions at the same tree-location
carrying different filter arguments. -/
def twoArgsWave : List (Submission Nat) :=
  [⟨[PathSeg.str "users", PathSeg.idx 0, PathSeg.str "posts"], 5,
      [(DEFAULT_FILTER_ARG, PyVal.str "first")]⟩,
   ⟨[PathSeg.str "users", PathSeg.idx 1, PathSeg.str "posts"], 7,
      [(DEFAULT_FILTER_ARG, PyVal.str "second")]⟩]

/-- Claim exemplar: a parent model with a single primary-key column. -/
def parentOnePk : Model := [⟨"id", true⟩, ⟨"name", false⟩]

/-- Claim exemplar: a child model with two primary-key columns. -/
def childTwoPk : Model := [⟨"a", true⟩, ⟨"b", true⟩]

/-- Claim exemplar: a loader whose filter argument is present but falsy (an
empty list) while its sort argument is a valid, non-empty list. -/
def loaderFalsyFilter : ModelLoaderS :=
  { graphql_args := [(DEFAULT_FILTER_ARG, PyVal.list []),
      ("sort", PyVal.list [PyVal.str "x"])]
    model := childTwoPk
    parent_model := parentOnePk
    parent_model_pk_field := "id"
    model_relation_field := "children" }

/-- Claim exemplar: a loader whose filter argument is truthy while its sort
argument is present and truthy but not a list. -/
def loaderNonListSort : ModelLoaderS :=
  { graphql_args := [(DEFAULT_FILTER_ARG, PyVal.str "f"),
      ("sort", PyVal.int 5)]
    model := childTwoPk
    parent_model := parentOnePk
    parent_model_pk_field := "id"
    model_relation_field := "children" }

section Theorems

/-! Helper lemmas. -/

theorem truthy_none : PyVal.none.truthy = false := rfl

theorem dictGet_removeArg_self (d : ArgsDict) (key : String) :
    dictGet (removeArg d key) key = PyVal.none := by
  induction d with
  | nil => rfl
  | cons e rest ih =>
      by_cases h : e.1 = key
      · simpa [removeArg, List.filter_cons, h] using ih
      · simpa [removeArg, List.filter_cons, h, dictGet] using ih

theorem dictGet_removeArg_ne (d : ArgsDict) (key k : String) (h : k ≠ key) :
    dictGet (removeArg d key) k = dictGet d k := by
  induction d with
  | nil => rfl
  | cons e rest ih =>
      by_cases he : e.1 = key
      · simpa [removeArg, List.filter_cons, he, dictGet, Ne.symm h] using ih
      · by_cases hek : e.1 = k
        · simp [removeArg, List.filter_cons, he, hek, dictGet, h]
        · simpa [removeArg, List.filter_cons, he, hek, dictGet] using ih

theorem getModelPkFieldName_isOk_iff (model : Model) :
    (∃ f, getModelPkFieldName model = .ok f) ↔
      (model.filter (fun c => c.primary_key)).length = 1 := by
  unfold getModelPkFieldName
  rw [← List.length_map (model.filter (fun c => c.primary_key))
    (fun c => c.name)]
  generalize (model.filter (fun c => c.primary_key)).map (fun c => c.name) = xs
  rcases xs with _ | ⟨f, _ | ⟨g, rest⟩⟩ <;> simp

theorem init_isOk_iff (parent_model model : Model) (field_name : String)
    (args : ArgsDict) :
    (∃ l, ModelLoader.init parent_model model field_name args = .ok l) ↔
      (parent_model.filter (fun c => c.primary_key)).length = 1 := by
  unfold ModelLoader.init
  constructor
  · rintro ⟨l, hl⟩
    rcases h : getModelPkFieldName parent_model with e | f
    · rw [h] at hl; cases hl
    · exact (getModelPkFieldName_isOk_iff parent_model).1 ⟨f, h⟩
  · intro h
    obtain ⟨f, hf⟩ := (getModelPkFieldName_isOk_iff parent_model).2 h
    exact ⟨_, by rw [hf]⟩

theorem batch_load_fn_length {κ γ : Type} [DecidableEq κ]
    (rows : List (ParentRow κ γ)) (keys : List κ) :
    (batch_load_fn rows keys).length = keys.length := by
  simp [batch_load_fn]

theorem filter_pk_eq_of_nodup {κ γ : Type} [DecidableEq κ]
    (rows : List (ParentRow κ γ)) (k : κ)
    (h : (rows.map (fun p => p.pk)).Nodup) :
    rows.filter (fun p => p.pk = k) =
      match rows.find? (fun p => p.pk = k) with
      | some p => [p]
      | Option.none => [] := by
  induction rows with
  | nil => rfl
  | cons p rest ih =>
      simp only [List.map_cons, List.nodup_cons] at h
      obtain ⟨hnp, hnd⟩ := h
      by_cases hp : p.pk = k
      · have hrest : rest.filter (fun q => q.pk = k) = [] := by
          refine List.filter_eq_nil_iff.2 (fun q hq => ?_)
          simp only [decide_eq_true_eq]
          intro hqk
          exact hnp (by
            rw [← hp] at hqk
            exact hqk ▸ List.mem_map_of_mem (fun p => p.pk) hq)
        simp [List.filter_cons, List.find?_cons, hp, hrest]
      · simp [List.filter_cons, List.find?_cons, hp, ih hnd]

theorem filter_mem_filter_eq {κ γ : Type} [DecidableEq κ]
    (rows : List (ParentRow κ γ)) (keys : List κ) (k : κ) (hk : k ∈ keys) :
    (rows.filter (fun p => p.pk ∈ keys)).filter (fun p => p.pk = k) =
      rows.filter (fun p => p.pk = k) := by
  induction rows with
  | nil => rfl
  | cons p rest ih =>
      by_cases h1 : p.pk ∈ keys
      · by_cases h2 : p.pk = k <;> simp [List.filter_cons, h1, h2, hk, ih]
      · have h2 : ¬p.pk = k := fun hh => h1 (hh ▸ hk)
        simp [List.filter_cons, h1, h2, ih]

theorem pyDictLookup_filter_eq {κ γ : Type} [DecidableEq κ]
    (rows : List (ParentRow κ γ)) (keys : List κ) (k : κ) (hk : k ∈ keys)
    (h : (rows.map (fun p => p.pk)).Nodup) :
    (pyDictLookup (rows.filter (fun p => p.pk ∈ keys)) k).getD [] =
      childrenBelongingTo rows k := by
  unfold pyDictLookup childrenBelongingTo
  rw [filter_mem_filter_eq rows keys k hk, filter_pk_eq_of_nodup rows k h]
  cases rows.find? (fun p => p.pk = k) <;> simp

theorem load_id {κ : Type} [DecidableEq κ] (l : LoaderInst κ) (k : κ) :
    (l.load k).id = l.id := by
  unfold LoaderInst.load; split <;> rfl

theorem load_args {κ : Type} [DecidableEq κ] (l : LoaderInst κ) (k : κ) :
    (l.load k).args = l.args := by
  unfold LoaderInst.load; split <;> rfl

theorem regLookup_update_self {κ : Type}
    (L : List (List String × LoaderInst κ)) (k : List String)
    (l : LoaderInst κ) :
    regLookup (regUpdate L k l) k = (regLookup L k).map (fun _ => l) := by
  induction L with
  | nil => rfl
  | cons e rest ih =>
      by_cases h : e.1 = k <;> simp [regUpdate, regLookup, h, ih]

theorem regLookup_update_ne {κ : Type}
    (L : List (List String × LoaderInst κ)) (k k' : List String)
    (l : LoaderInst κ) (h : k' ≠ k) :
    regLookup (regUpdate L k l) k' = regLookup L k' := by
  induction L with
  | nil => rfl
  | cons e rest ih =>
      by_cases he : e.1 = k <;>
        simp [regUpdate, regLookup, he, ih, Ne.symm h]

theorem regLookup_append_some {κ : Type}
    (L₁ L₂ : List (List String × LoaderInst κ)) (k : List String)
    (l : LoaderInst κ) (h : regLookup L₁ k = some l) :
    regLookup (L₁ ++ L₂) k = some l := by
  induction L₁ with
  | nil => cases h
  | cons e rest ih =>
      by_cases he : e.1 = k <;> simp_all [regLookup]

theorem regLookup_append_none {κ : Type}
    (L₁ L₂ : List (List String × LoaderInst κ)) (k : List String)
    (h : regLookup L₁ k = Option.none) :
    regLookup (L₁ ++ L₂) k = regLookup L₂ k := by
  induction L₁ with
  | nil => rfl
  | cons e rest ih =>
      by_cases he : e.1 = k <;> simp_all [regLookup]

theorem regLookup_append_single_ne {κ : Type}
    (L : List (List String × LoaderInst κ)) (key k : List String)
    (l : LoaderInst κ) (h : key ≠ k) :
    regLookup (L ++ [(key, l)]) k = regLookup L k := by
  cases hL : regLookup L k with
  | some x => exact regLookup_append_some _ _ _ _ hL
  | none => rw [regLookup_append_none _ _ _ hL]; simp [regLookup, h]

theorem regLookup_mem {κ : Type} (L : List (List String × LoaderInst κ))
    (k : List String) (l : LoaderInst κ) (h : regLookup L k = some l) :
    (k, l) ∈ L := by
  induction L with
  | nil => cases h
  | cons e rest ih =>
      by_cases he : e.1 = k
      · simp [regLookup, he] at h
        exact List.mem_cons.2 (Or.inl (by rw [← he, ← h]))
      · simp [regLookup, he] at h
        exact List.mem_cons_of_mem _ (ih h)

theorem regLookup_none_of_not_mem {κ : Type}
    (L : List (List String × LoaderInst κ)) (k : List String)
    (h : regLookup L k = Option.none) : k ∉ L.map Prod.fst := by
  induction L with
  | nil => simp
  | cons e rest ih =>
      by_cases he : e.1 = k
      · simp [regLookup, he] at h
      · simp [regLookup, he] at h
        simp [ih h, Ne.symm he]

theorem regUpdate_eq_of_not_mem {κ : Type}
    (L : List (List String × LoaderInst κ)) (k : List String)
    (v : LoaderInst κ) (h : ∀ e ∈ L, e.1 ≠ k) : regUpdate L k v = L := by
  induction L with
  | nil => rfl
  | cons e rest ih =>
      have he : ¬e.1 = k := h e (List.mem_cons_self e rest)
      simp [regUpdate, he]
      exact ih (fun e' he' => h e' (List.mem_cons_of_mem _ he'))

theorem regUpdate_map_fst {κ : Type}
    (L : List (List String × LoaderInst κ)) (k : List String)
    (v : LoaderInst κ) :
    (regUpdate L k v).map Prod.fst = L.map Prod.fst := by
  induction L with
  | nil => rfl
  | cons e rest ih =>
      by_cases he : e.1 = k <;> simp [regUpdate, he, ih]

theorem regUpdate_length {κ : Type}
    (L : List (List String × LoaderInst κ)) (k : List String)
    (v : LoaderInst κ) : (regUpdate L k v).length = L.length := by
  induction L with
  | nil => rfl
  | cons e rest ih => simp [regUpdate, ih]

theorem regUpdate_map_ids_of_lookup {κ : Type}
    (L : List (List String × LoaderInst κ)) (k : List String)
    (l v : LoaderInst κ) (hnd : (L.map Prod.fst).Nodup)
    (hl : regLookup L k = some l) (hv : v.id = l.id) :
    (regUpdate L k v).map (fun e => e.2.id) = L.map (fun e => e.2.id) := by
  induction L with
  | nil => rfl
  | cons e rest ih =>
      simp only [List.map_cons, List.nodup_cons] at hnd
      obtain ⟨hnotin, hnd⟩ := hnd
      by_cases he : e.1 = k
      · simp [regLookup, he] at hl
        have hrest : regUpdate rest k v = rest := by
          refine regUpdate_eq_of_not_mem rest k v (fun e' he' heq => ?_)
          exact hnotin (he ▸ heq ▸ List.mem_map_of_mem Prod.fst he')
        simp [regUpdate, he, hrest, hv, hl]
      · simp [regLookup, he] at hl
        simp [regUpdate, he, ih hnd hl]

theorem regUpdate_mem {κ : Type}
    (L : List (List String × LoaderInst κ)) (k : List String)
    (v : LoaderInst κ) (e' : List String × LoaderInst κ)
    (h : e' ∈ regUpdate L k v) :
    e' ∈ L ∨ e' = (k, v) := by
  induction L with
  | nil => cases h
  | cons e rest ih =>
      simp only [regUpdate] at h
      rcases List.mem_cons.1 h with h | h
      · by_cases he : e.1 = k
        · simp [he] at h; right; exact h
        · simp [he] at h; left; exact h ▸ List.mem_cons_self e rest
      · rcases ih h with h | h
        · exact Or.inl (List.mem_cons_of_mem _ h)
        · exact Or.inr h

theorem regLookup_id_inj {κ : Type}
    (L : List (List String × LoaderInst κ))
    (hids : (L.map (fun e => e.2.id)).Nodup)
    (k1 k2 : List String) (l1 l2 : LoaderInst κ) (hne : k1 ≠ k2)
    (h1 : regLookup L k1 = some l1) (h2 : regLookup L k2 = some l2) :
    l1.id ≠ l2.id := by
  induction L with
  | nil => cases h1
  | cons e rest ih =>
      simp only [List.map_cons, List.nodup_cons] at hids
      obtain ⟨hnotin, hnd⟩ := hids
      by_cases he1 : e.1 = k1
      · have he2 : ¬e.1 = k2 := fun hh => hne (he1 ▸ hh ▸ rfl)
        simp [regLookup, he1] at h1
        simp [regLookup, he2] at h2
        have hmem : l2.id ∈ rest.map (fun e => e.2.id) :=
          List.mem_map_of_mem _ (regLookup_mem rest k2 l2 h2)
        intro heq
        exact hnotin (h1 ▸ heq ▸ hmem)
      · by_cases he2 : e.1 = k2
        · simp [regLookup, he2] at h2
          simp [regLookup, he1] at h1
          have hmem : l1.id ∈ rest.map (fun e => e.2.id) :=
            List.mem_map_of_mem _ (regLookup_mem rest k1 l1 h1)
          intro heq
          exact hnotin (h2 ▸ heq ▸ hmem)
        · simp [regLookup, he1] at h1
          simp [regLookup, he2] at h2
          exact ih hnd h1 h2

theorem step_lookup_ne {κ : Type} [DecidableEq κ] (r : LoaderRegistry κ)
    (s : Submission κ) (k : List String) (h : dataLoaderKey s.path ≠ k) :
    regLookup (getOrCreateAndLoad r s).loaders k = regLookup r.loaders k := by
  simp only [getOrCreateAndLoad]
  cases hl : regLookup r.loaders (dataLoaderKey s.path) with
  | none => simpa using regLookup_append_single_ne r.loaders _ k _ h
  | some l => simpa using regLookup_update_ne r.loaders _ k _ (Ne.symm h)

theorem step_lookup_self_of_hit {κ : Type} [DecidableEq κ]
    (r : LoaderRegistry κ) (s : Submission κ) (l0 : LoaderInst κ)
    (h : regLookup r.loaders (dataLoaderKey s.path) = some l0) :
    regLookup (getOrCreateAndLoad r s).loaders (dataLoaderKey s.path) =
      some (l0.load s.key) := by
  simp only [getOrCreateAndLoad]
  rw [h]
  simp [regLookup_update_self, h]

theorem step_lookup_self_of_miss {κ : Type} [DecidableEq κ]
    (r : LoaderRegistry κ) (s : Submission κ)
    (h : regLookup r.loaders (dataLoaderKey s.path) = Option.none) :
    regLookup (getOrCreateAndLoad r s).loaders (dataLoaderKey s.path) =
      some ⟨r.nextId, s.args, [s.key]⟩ := by
  simp only [getOrCreateAndLoad]
  rw [h]
  simp [regLookup_append_none _ _ _ h, regLookup]

theorem step_preserves_id_args {κ : Type} [DecidableEq κ]
    (r : LoaderRegistry κ) (s : Submission κ) (k : List String)
    (l : LoaderInst κ) (h : regLookup r.loaders k = some l) :
    ∃ l', regLookup (getOrCreateAndLoad r s).loaders k = some l' ∧
      l'.id = l.id ∧ l'.args = l.args := by
  by_cases hk : dataLoaderKey s.path = k
  · have hl : regLookup r.loaders (dataLoaderKey s.path) = some l := hk ▸ h
    refine ⟨l.load s.key, ?_, load_id l s.key, load_args l s.key⟩
    rw [← hk]
    exact step_lookup_self_of_hit r s l hl
  · exact ⟨l, (step_lookup_ne r s k hk).trans h, rfl, rfl⟩

theorem fold_preserves_id_args {κ : Type} [DecidableEq κ]
    (subs : List (Submission κ)) (r : LoaderRegistry κ) (k : List String)
    (l : LoaderInst κ) (h : regLookup r.loaders k = some l) :
    ∃ l', regLookup ((subs.foldl getOrCreateAndLoad r).loaders) k = some l' ∧
      l'.id = l.id ∧ l'.args = l.args := by
  induction subs generalizing r l with
  | nil => exact ⟨l, h, rfl, rfl⟩
  | cons s rest ih =>
      obtain ⟨l', h', hid, hargs⟩ := step_preserves_id_args r s k l h
      obtain ⟨l'', h'', hid', hargs'⟩ := ih _ _ h'
      exact ⟨l'', h'', hid'.trans hid, hargs'.trans hargs⟩

theorem step_wf {κ : Type} [DecidableEq κ] (r : LoaderRegistry κ)
    (s : Submission κ) (h : RegWF r) : RegWF (getOrCreateAndLoad r s) := by
  obtain ⟨hkeys, hids, hbound⟩ := h
  unfold RegWF
  simp only [getOrCreateAndLoad]
  cases hl : regLookup r.loaders (dataLoaderKey s.path) with
  | some l =>
      refine ⟨?_, ?_, ?_⟩
      · simpa [regUpdate_map_fst] using hkeys
      · simpa [regUpdate_map_ids_of_lookup r.loaders _ l (l.load s.key)
          hkeys hl (load_id l s.key)] using hids
      · intro e he
        simp only at he
        rcases regUpdate_mem r.loaders _ (l.load s.key) e he with he' | he'
        · exact hbound e he'
        · have hlt : l.id < r.nextId :=
            hbound _ (regLookup_mem r.loaders _ l hl)
          simpa [he', load_id] using hlt
  | none =>
      refine ⟨?_, ?_, ?_⟩
      · have hnot := regLookup_none_of_not_mem r.loaders _ hl
        rw [List.map_append, List.nodup_append]
        refine ⟨hkeys, List.nodup_singleton _, ?_⟩
        intro a ha hb
        simp at hb
        exact hnot (hb ▸ ha)
      · have hfresh : r.nextId ∉ r.loaders.map (fun e => e.2.id) := by
          intro hmem
          obtain ⟨e, he, heq⟩ := List.mem_map.1 hmem
          exact absurd heq (Nat.ne_of_lt (hbound e he))
        rw [List.map_append, List.nodup_append]
        refine ⟨hids, List.nodup_singleton _, ?_⟩
        intro a ha hb
        simp at hb
        exact hfresh (hb ▸ ha)
      · intro e he
        simp only at he
        rcases List.mem_append.1 he with he' | he'
        · exact Nat.lt_succ_of_lt (hbound e he')
        · simp at he'
          simp [he']

theorem foldl_wf {κ : Type} [DecidableEq κ] (subs : List (Submission κ))
    (r : LoaderRegistry κ) (h : RegWF r) :
    RegWF (subs.foldl getOrCreateAndLoad r) := by
  induction subs generalizing r with
  | nil => exact h
  | cons s rest ih => exact ih _ (step_wf r s h)

theorem processWave_wf {κ : Type} [DecidableEq κ]
    (subs : List (Submission κ)) : RegWF (processWave subs) :=
  foldl_wf subs LoaderRegistry.empty ⟨List.nodup_nil, List.nodup_nil,
    fun _ he => absurd he (List.not_mem_nil _)⟩

theorem processWave_eq_foldl_drop {κ : Type} [DecidableEq κ]
    (subs : List (Submission κ)) (n : Nat) :
    processWave subs =
      (subs.drop n).foldl getOrCreateAndLoad (processWave (subs.take n)) := by
  unfold processWave
  conv_lhs => rw [← List.take_append_drop n subs]
  rw [List.foldl_append]

theorem processWave_take_succ {κ : Type} [DecidableEq κ]
    (subs : List (Submission κ)) (i : Fin subs.length) :
    processWave (subs.take (i.1 + 1)) =
      getOrCreateAndLoad (processWave (subs.take i.1)) (subs.get i) := by
  unfold processWave
  rw [List.take_succ, List.foldl_append]
  simp [List.getElem?_eq_getElem i.2]

theorem loaderIdAt_eq_final {κ : Type} [DecidableEq κ]
    (subs : List (Submission κ)) (i : Fin subs.length) :
    ∃ l, regLookup (processWave subs).loaders
        (dataLoaderKey (subs.get i).path) = some l ∧
      loaderIdAt subs i = some l.id := by
  have hpref : ∃ l0, regLookup (processWave (subs.take (i.1 + 1))).loaders
      (dataLoaderKey (subs.get i).path) = some l0 := by
    rw [processWave_take_succ subs i]
    cases hl : regLookup (processWave (subs.take i.1)).loaders
        (dataLoaderKey (subs.get i).path) with
    | some l0 => exact ⟨_, step_lookup_self_of_hit _ _ _ hl⟩
    | none => exact ⟨_, step_lookup_self_of_miss _ _ hl⟩
  obtain ⟨l0, hl0⟩ := hpref
  obtain ⟨l', h', hid, _⟩ :=
    fold_preserves_id_args (subs.drop (i.1 + 1)) _ _ _ hl0
  refine ⟨l', ?_, ?_⟩
  · rw [processWave_eq_foldl_drop subs (i.1 + 1)]
    exact h'
  · unfold loaderIdAt
    rw [hl0]
    simp [hid]

theorem foldl_length_of_hit {κ : Type} [DecidableEq κ]
    (subs : List (Submission κ)) (r : LoaderRegistry κ) (tl : List String)
    (hall : ∀ s ∈ subs, dataLoaderKey s.path = tl)
    (hsome : ∃ l, regLookup r.loaders tl = some l) :
    (subs.foldl getOrCreateAndLoad r).loaders.length = r.loaders.length := by
  induction subs generalizing r with
  | nil => rfl
  | cons s rest ih =>
      obtain ⟨l, hl⟩ := hsome
      have hk : dataLoaderKey s.path = tl := hall s (List.mem_cons_self s rest)
      have hl' : regLookup r.loaders (dataLoaderKey s.path) = some l := hk ▸ hl
      have hstep : (getOrCreateAndLoad r s).loaders.length =
          r.loaders.length := by
        simp only [getOrCreateAndLoad]
        rw [hl']
        simp [regUpdate_length]
      have hsome' : ∃ l', regLookup (getOrCreateAndLoad r s).loaders tl =
          some l' := ⟨l.load s.key, hk ▸ step_lookup_self_of_hit r s l hl'⟩
      rw [List.foldl_cons, ih _ (fun s' hs' =>
        hall s' (List.mem_cons_of_mem _ hs')) hsome', hstep]

theorem waveRetrievalCount_eq_length {κ γ : Type} [DecidableEq κ]
    (rows : List (ParentRow κ γ)) (subs : List (Submission κ)) :
    waveRetrievalCount rows subs = (processWave subs).loaders.length := by
  unfold waveRetrievalCount fireBatch
  induction (processWave subs).loaders with
  | nil => rfl
  | cons e rest ih =>
      simp only [List.map_cons, List.sum_cons, List.length_cons, ih]
      omega

theorem fold_args_first {κ : Type} [DecidableEq κ]
    (subs : List (Submission κ)) (r : LoaderRegistry κ) (tl : List String)
    (s0 : Submission κ) (hr : regLookup r.loaders tl = Option.none)
    (h : subs.find? (fun s => dataLoaderKey s.path = tl) = some s0) :
    ∃ l, regLookup ((subs.foldl getOrCreateAndLoad r).loaders) tl = some l ∧
      l.args = s0.args := by
  induction subs generalizing r with
  | nil => cases h
  | cons s rest ih =>
      by_cases hs : dataLoaderKey s.path = tl
      · have hs0 : s = s0 := by
          rw [List.find?_cons_of_pos _ (by simpa using hs)] at h
          exact Option.some.inj h
        have hl : regLookup r.loaders (dataLoaderKey s.path) =
            Option.none := hs ▸ hr
        have hstep := step_lookup_self_of_miss r s hl
        rw [hs] at hstep
        obtain ⟨l', h', _, hargs⟩ :=
          fold_preserves_id_args rest (getOrCreateAndLoad r s) tl _ hstep
        exact ⟨l', h', by rw [hargs, ← hs0]⟩
      · rw [List.find?_cons_of_neg _ (by simpa using hs)] at h
        have hstep := step_lookup_ne r s tl hs
        exact ih _ (hstep.trans hr) h

/-! Claim theorems. -/

/-- Claim C1: when every nested-field resolution of a wave submits its
parent key at the same tree-location (any K of them, K at least 1), the
request ends the wave with exactly one loader registered for that location,
and exactly one combined retrieval executes: the single loader's one
`batch_load_fn` call runs its single composed query, however many keys or
duplicate keys were submitted. -/
theorem single_retrieval_per_tree_location {κ γ : Type} [DecidableEq κ]
    (rows : List (ParentRow κ γ)) (subs : List (Submission κ))
    (tl : List String) (hne : subs ≠ [])
    (hall : ∀ s ∈ subs, dataLoaderKey s.path = tl) :
    waveRetrievalCount rows subs = 1 := by
  rw [waveRetrievalCount_eq_length]
  cases subs with
  | nil => exact absurd rfl hne
  | cons s rest =>
      have hk : dataLoaderKey s.path = tl := hall s (List.mem_cons_self s rest)
      have h0 : regLookup (LoaderRegistry.empty (κ := κ)).loaders
          (dataLoaderKey s.path) = Option.none := rfl
      have hstep := step_lookup_self_of_miss LoaderRegistry.empty s h0
      have hlen1 : (getOrCreateAndLoad (LoaderRegistry.empty (κ := κ))
          s).loaders.length = 1 := by
        simp only [getOrCreateAndLoad]
        rw [h0]
        rfl
      unfold processWave
      rw [List.foldl_cons,
        foldl_length_of_hit rest _ tl
          (fun s' hs' => hall s' (List.mem_cons_of_mem _ hs'))
          ⟨_, hk ▸ hstep⟩,
        hlen1]

/-- Witness for `single_retrieval_per_tree_location`: two sibling
submissions at the tree-location `["users", "posts"]` trigger exactly one
retrieval. -/
theorem single_retrieval_per_tree_location_witness :
    twoSiblingWave ≠ [] ∧
    waveRetrievalCount ([] : List (ParentRow Nat Nat)) twoSiblingWave = 1 :=
  ⟨by simp [twoSiblingWave],
   single_retrieval_per_tree_location [] twoSiblingWave ["users", "posts"]
     (by simp [twoSiblingWave]) (by decide)⟩

/-- Claim C2: `batch_load_fn` returns one result per submitted key, in
first-submission key order: the result list is the pointwise image of the key
list under "the children belonging to that key", so its length equals the key
list's length and its i-th element is the child sequence of `keys[i]`; a key
with no matching (filtered) parent row yields the empty list, never an
error. -/
theorem batch_results_in_key_order {κ γ : Type} [DecidableEq κ]
    (rows : List (ParentRow κ γ)) (keys : List κ)
    (h : (rows.map (fun p => p.pk)).Nodup) :
    batch_load_fn rows keys = keys.map (childrenBelongingTo rows) ∧
    (batch_load_fn rows keys).length = keys.length ∧
    ∀ k ∈ keys, (∀ p ∈ rows, p.pk ≠ k) → childrenBelongingTo rows k = [] := by
  refine ⟨?_, batch_load_fn_length rows keys, ?_⟩
  · simp only [batch_load_fn]
    exact List.map_congr_left
      (fun k hk => pyDictLookup_filter_eq rows keys k hk h)
  · intro k hk hnone
    unfold childrenBelongingTo
    have hfind : rows.find? (fun p => p.pk = k) = Option.none := by
      refine List.find?_eq_none.2 (fun q hq => ?_)
      simpa using hnone q hq
    rw [hfind]

/-- Witness for `batch_results_in_key_order`: the spec's scenario, parent
keys `[1, 2, 3]` with children `[10, 11]` only for key `2`, resolves to
`[[], [10, 11], []]`. -/
theorem batch_results_in_key_order_witness :
    (([ParentRow.mk 2 [10, 11]].map (fun p => p.pk)).Nodup) ∧
    batch_load_fn [ParentRow.mk 2 [10, 11]] [1, 2, 3] =
      [1, 2, 3].map (childrenBelongingTo [ParentRow.mk 2 [10, 11]]) ∧
    batch_load_fn [ParentRow.mk 2 [10, 11]] [1, 2, 3] =
      [[], [10, 11], []] :=
  ⟨by decide,
   (batch_results_in_key_order [ParentRow.mk 2 [10, 11]] [1, 2, 3]
     (by decide)).1,
   by decide⟩

/-- Claim C3: within one request, two loader lookups return the same loader
instance exactly when the string path segments of their resolution paths
agree: sibling invocations whose paths differ only in list indices share one
loader, and distinct tree-locations never share one. -/
theorem same_loader_iff_same_tree_location {κ : Type} [DecidableEq κ]
    (subs : List (Submission κ)) (i j : Fin subs.length) :
    loaderIdAt subs i = loaderIdAt subs j ↔
      dataLoaderKey (subs.get i).path = dataLoaderKey (subs.get j).path := by
  obtain ⟨li, hli, hidi⟩ := loaderIdAt_eq_final subs i
  obtain ⟨lj, hlj, hidj⟩ := loaderIdAt_eq_final subs j
  rw [hidi, hidj]
  constructor
  · intro h
    by_contra hne
    exact regLookup_id_inj (processWave subs).loaders
      (processWave_wf subs).2.1 _ _ li lj hne hli hlj (Option.some.inj h)
  · intro h
    rw [h] at hli
    rw [hli] at hlj
    rw [Option.some.inj hlj]

/-- Claim C4: duplicate keys in the submitted key list resolve to identical
content: whenever `keys[i] = keys[j]`, the results of `batch_load_fn` at
positions `i` and `j` coincide. -/
theorem duplicate_keys_resolve_identically {κ γ : Type} [DecidableEq κ]
    (rows : List (ParentRow κ γ)) (keys : List κ) (i j : Nat)
    (hi : i < keys.length) (hj : j < keys.length)
    (h : keys.get ⟨i, hi⟩ = keys.get ⟨j, hj⟩) :
    (batch_load_fn rows keys).get
        ⟨i, by rw [batch_load_fn_length]; exact hi⟩ =
      (batch_load_fn rows keys).get
        ⟨j, by rw [batch_load_fn_length]; exact hj⟩ := by
  have hget : ∀ (n : Nat) (hn : n < keys.length),
      (batch_load_fn rows keys).get
          ⟨n, by rw [batch_load_fn_length]; exact hn⟩ =
        (pyDictLookup (rows.filter (fun p => p.pk ∈ keys))
          (keys.get ⟨n, hn⟩)).getD [] := by
    intro n hn
    simp [batch_load_fn]
  rw [hget i hi, hget j hj, h]

/-- Witness for `duplicate_keys_resolve_identically`: submitting the key `5`
at positions 0 and 2 yields the same resolved content at both positions. -/
theorem duplicate_keys_resolve_identically_witness :
    ([5, 7, 5] : List Nat).get ⟨0, by decide⟩ = ([5, 7, 5] : List Nat).get
      ⟨2, by decide⟩ ∧
    (batch_load_fn [ParentRow.mk 5 [1]] [5, 7, 5]).get
        ⟨0, by rw [batch_load_fn_length]; decide⟩ =
      (batch_load_fn [ParentRow.mk 5 [1]] [5, 7, 5]).get
        ⟨2, by rw [batch_load_fn_length]; decide⟩ :=
  ⟨by decide,
   duplicate_keys_resolve_identically [ParentRow.mk 5 [1]] [5, 7, 5] 0 2
     (by decide) (by decide) (by decide)⟩

/-- Claim C5: constructing a `ModelLoader` succeeds exactly when the parent
model has exactly one primary-key field; otherwise `__init__` raises
`ModelNotSupported` (the error type of the embedded constructor) at
construction time, before any query is built or executed. -/
theorem loader_construction_checks_parent_pk (parent_model model : Model)
    (field_name : String) (args : ArgsDict) :
    (∃ l, ModelLoader.init parent_model model field_name args = .ok l) ↔
      (parent_model.filter (fun c => c.primary_key)).length = 1 :=
  init_isOk_iff parent_model model field_name args

/-- Claim C6 (counterexample): a child model with two primary-key columns is
not rejected: loader construction succeeds and `_get_query` composes the
joined query without error, contradicting the claim that composition fails
before querying when the child's primary-key cardinality is not 1. -/
theorem child_two_pk_not_rejected :
    (childTwoPk.filter (fun c => c.primary_key)).length = 2 ∧
    ∃ l, ModelLoader.init parentOnePk childTwoPk "children" [] = .ok l ∧
      l.getQuery = Query.joined (Query.base parentOnePk) childTwoPk
        (Query.base childTwoPk) "children" "id" := by
  exact ⟨rfl, ⟨_, rfl, rfl⟩⟩

/-- Claim C6 (amended): query composition never inspects the child entity's
primary keys; only the parent's primary-key cardinality is checked, at
construction time, so a loader over any child model is constructed (and its
query composed) whenever the parent has exactly one primary-key field. -/
theorem child_pk_never_checked (parent_model model : Model)
    (field_name : String) (args : ArgsDict)
    (hp : (parent_model.filter (fun c => c.primary_key)).length = 1) :
    ∃ l, ModelLoader.init parent_model model field_name args = .ok l :=
  (init_isOk_iff parent_model model field_name args).2 hp

/-- Witness for `child_pk_never_checked`: a parent with one primary key and a
child with two primary keys. -/
theorem child_pk_never_checked_witness :
    (parentOnePk.filter (fun c => c.primary_key)).length = 1 ∧
    ∃ l, ModelLoader.init parentOnePk childTwoPk "children" [] = .ok l :=
  ⟨by decide, child_pk_never_checked parentOnePk childTwoPk "children" []
    (by decide)⟩

/-- Claim C7: on either context shape (mapping or attribute-bearing object),
a lookup leaves the context with the dataloaders slot present, a repeated
lookup returns the very same registry and leaves the context unchanged, and
a context without the slot gets it created holding the fresh empty registry;
the function is total, so the registry never fails on either shape. -/
theorem context_slot_created_and_reused {κ : Type} (context : Ctx κ)
    (field : String) :
    hasSlot (getDataLoaders context field).2 field = true ∧
    getDataLoaders (getDataLoaders context field).2 field =
      ((getDataLoaders context field).1, (getDataLoaders context field).2) ∧
    (hasSlot context field = false →
      (getDataLoaders context field).1 = LoaderRegistry.empty) := by
  cases context with
  | dict entries =>
      cases h : entries.lookup field <;>
        simp [getDataLoaders, hasSlot, h, List.lookup]
  | obj slot => cases slot <;> simp [getDataLoaders, hasSlot]

/-- Witness for `context_slot_created_and_reused`: an object context without
the attribute gains the slot, and the created registry is the empty one. -/
theorem context_slot_created_and_reused_witness :
    hasSlot (getDataLoaders (Ctx.obj (κ := Nat) Option.none)
      dataloaders_field).2 dataloaders_field = true ∧
    (getDataLoaders (Ctx.obj (κ := Nat) Option.none) dataloaders_field).1 =
      LoaderRegistry.empty :=
  ⟨(context_slot_created_and_reused (Ctx.obj Option.none) dataloaders_field).1,
   (context_slot_created_and_reused (Ctx.obj Option.none)
      dataloaders_field).2.2 rfl⟩

/-- Claim C8: the loader registered at a tree-location carries exactly the
arguments of the first submission that reached that location; later sibling
submissions find the existing loader, and their own (possibly different)
filter/sort arguments have no effect on the query the batch composes, which
is built from the captured arguments alone. -/
theorem loader_args_captured_from_first {κ : Type} [DecidableEq κ]
    (subs : List (Submission κ)) (tl : List String) (s0 : Submission κ)
    (h : subs.find? (fun s => dataLoaderKey s.path = tl) = some s0) :
    ∃ l, regLookup (processWave subs).loaders tl = some l ∧
      l.args = s0.args ∧
      ∀ (parent_model model : Model) (pk fn fa : String),
        ModelLoaderS.getQuery ⟨fa, l.args, model, parent_model, pk, fn⟩ =
          ModelLoaderS.getQuery ⟨fa, s0.args, model, parent_model, pk, fn⟩ := by
  obtain ⟨l, hl, hargs⟩ :=
    fold_args_first subs LoaderRegistry.empty tl s0 rfl h
  exact ⟨l, hl, hargs, fun parent_model model pk fn fa => by rw [hargs]⟩

/-- Witness for `loader_args_captured_from_first`: two sibling submissions
carrying different filter arguments leave the loader holding the first
submission's arguments. -/
theorem loader_args_captured_from_first_witness :
    twoArgsWave.find? (fun s => dataLoaderKey s.path = ["users", "posts"]) =
      some (twoArgsWave.get ⟨0, by decide⟩) ∧
    ∃ l, regLookup (processWave twoArgsWave).loaders ["users", "posts"] =
        some l ∧ l.args = [(DEFAULT_FILTER_ARG, PyVal.str "first")] := by
  refine ⟨rfl, ?_⟩
  obtain ⟨l, hl, hargs, _⟩ := loader_args_captured_from_first twoArgsWave
    ["users", "posts"] (twoArgsWave.get ⟨0, by decide⟩) rfl
  exact ⟨l, hl, hargs⟩

/-- Claim C9: when the captured arguments contain neither a filter argument
nor a sort argument, `_get_query` applies neither the filter stage nor the
sort stage: the composed query is exactly the unfiltered, unsorted child base
query joined to the parent. -/
theorem no_filter_no_sort_plain_join (self : ModelLoaderS)
    (hf : dictGet self.graphql_args self.filter_arg = PyVal.none)
    (hs : dictGet self.graphql_args "sort" = PyVal.none) :
    self.getQuery = Query.joined (Query.base self.parent_model) self.model
      (Query.base self.model) self.model_relation_field
      self.parent_model_pk_field := by
  simp [ModelLoaderS.getQuery, hf, hs, PyVal.truthy]

/-- Witness for `no_filter_no_sort_plain_join`: a loader with an empty
argument dictionary composes the plain join. -/
theorem no_filter_no_sort_plain_join_witness :
    dictGet ([] : ArgsDict) DEFAULT_FILTER_ARG = PyVal.none ∧
    ModelLoaderS.getQuery
      { graphql_args := []
        model := childTwoPk
        parent_model := parentOnePk
        parent_model_pk_field := "id"
        model_relation_field := "children" } =
      Query.joined (Query.base parentOnePk) childTwoPk (Query.base childTwoPk)
        "children" "id" :=
  ⟨rfl,
   no_filter_no_sort_plain_join
     { graphql_args := []
       model := childTwoPk
       parent_model := parentOnePk
       parent_model_pk_field := "id"
       model_relation_field := "children" } rfl rfl⟩

/-- Claim C10: the two degenerate-argument leniencies hold independently
and silently.  A filter argument that is present but falsy skips the filter
stage, whatever the sort argument is: the composed query is identical to the
one built with the filter argument omitted.  A sort argument that is present
but falsy or not a list skips the sort stage, whatever the filter argument
is: the composed query is identical to the one built with the sort argument
omitted (for the sort direction the configured filter argument name is
assumed not to be the literal name `sort`, in which case the two arguments
would be one and the same binding). -/
theorem falsy_filter_nonlist_sort_skipped (self : ModelLoaderS) :
    ((dictGet self.graphql_args self.filter_arg).truthy = false →
      self.getQuery = ModelLoaderS.getQuery { self with
        graphql_args := removeArg self.graphql_args self.filter_arg }) ∧
    (self.filter_arg ≠ "sort" →
      (dictGet self.graphql_args "sort").truthy = false ∨
        (dictGet self.graphql_args "sort").isList = false →
      self.getQuery = ModelLoaderS.getQuery { self with
        graphql_args := removeArg self.graphql_args "sort" }) := by
  constructor
  · intro hf
    by_cases hfa : self.filter_arg = "sort"
    · rw [hfa] at hf
      simp [ModelLoaderS.getQuery, hfa, hf, dictGet_removeArg_self,
        truthy_none]
    · simp [ModelLoaderS.getQuery, hf, dictGet_removeArg_self,
        dictGet_removeArg_ne self.graphql_args self.filter_arg "sort"
          (Ne.symm hfa),
        truthy_none]
  · intro hfa hs
    rcases hs with hs | hs <;>
      simp [ModelLoaderS.getQuery, hs, dictGet_removeArg_self,
        dictGet_removeArg_ne self.graphql_args "sort" self.filter_arg hfa,
        truthy_none]

/-- Witness for `falsy_filter_nonlist_sort_skipped`, covering both mixed
cases: with a falsy (empty list) filter and a valid sort list, only the
filter stage is skipped and the sort is still applied; with a truthy filter
and a non-list sort, only the sort stage is skipped and the filter is still
applied. -/
theorem falsy_filter_nonlist_sort_skipped_witness :
    ((dictGet loaderFalsyFilter.graphql_args
        loaderFalsyFilter.filter_arg).truthy = false ∧
      loaderFalsyFilter.getQuery = ModelLoaderS.getQuery
        { loaderFalsyFilter with graphql_args :=
            (removeArg loaderFalsyFilter.graphql_args
              loaderFalsyFilter.filter_arg) } ∧
      loaderFalsyFilter.getQuery = Query.joined (Query.base parentOnePk)
        childTwoPk (Query.ordered (Query.base childTwoPk) [PyVal.str "x"])
        "children" "id") ∧
    ((dictGet loaderNonListSort.graphql_args "sort").isList = false ∧
      loaderNonListSort.getQuery = ModelLoaderS.getQuery
        { loaderNonListSort with graphql_args :=
            (removeArg loaderNonListSort.graphql_args "sort") } ∧
      loaderNonListSort.getQuery = Query.joined (Query.base parentOnePk)
        childTwoPk (Query.filtered (Query.base childTwoPk) (PyVal.str "f"))
        "children" "id") :=
  ⟨⟨rfl, (falsy_filter_nonlist_sort_skipped loaderFalsyFilter).1 rfl, rfl⟩,
   ⟨rfl, (falsy_filter_nonlist_sort_skipped loaderNonListSort).2
      (by decide) (Or.inr rfl), rfl⟩⟩

end Theorems

end ConnectionField
